import Mathlib

/-!
Verification of the TG-Manager task storage and tree-manipulation core.

Shallow embedding of the TypeScript source:
  src/core/TaskManager.ts, src/core/UserConfig.ts (UserConfig and UserStorage),
  src/utils/idGenerator.ts, src/utils/stateManager.ts, src/types/cli.ts.

Tasks form a forest of nodes with optional fields; every Task Tree Manager
operation loads the stored file, operates on the in-memory forest and saves
the result.  JavaScript reference mutation of a node found by depth-first
search is rendered functionally as replacement of the first node found in
depth-first order.  A task with an absent `subtasks` key behaves identically
to one with an empty `subtasks` array in every embedded operation (the spec
itself declares absence and emptiness equivalent), so subtask lists are
embedded as plain lists.
-/

/-- TaskState from src/types/cli.ts: named display state. -/
structure TaskState where
  name : String
  hexColor : String
  icon : String
deriving DecidableEq, Repr

/-- Meta from src/types/cli.ts. -/
structure Meta where
  states : List TaskState
deriving DecidableEq, Repr

/-- ITask from src/types/cli.ts: a node of the task forest.  All scalar
fields are optional, mirroring the TypeScript interface. -/
inductive ITask where
  | mk (id : Option Nat) (name : Option String) (description : Option String)
       (state : Option String) (timestamp : Option String)
       (priority : Option Int) (subtasks : List ITask)

def ITask.id : ITask → Option Nat
  | .mk i _ _ _ _ _ _ => i

def ITask.name : ITask → Option String
  | .mk _ n _ _ _ _ _ => n

def ITask.description : ITask → Option String
  | .mk _ _ d _ _ _ _ => d

def ITask.state : ITask → Option String
  | .mk _ _ _ s _ _ _ => s

def ITask.timestamp : ITask → Option String
  | .mk _ _ _ _ t _ _ => t

def ITask.priority : ITask → Option Int
  | .mk _ _ _ _ _ p _ => p

def ITask.subtasks : ITask → List ITask
  | .mk _ _ _ _ _ _ su => su

/-- Replace the subtask list of a node, keeping every other field. -/
def ITask.withSubtasks : ITask → List ITask → ITask
  | .mk i n d s t p _, su => .mk i n d s t p su

/-- StorageFile from src/types/cli.ts: the persisted unit. -/
structure StorageFile where
  meta : Meta
  datas : List ITask

/-- extractAllIds from src/utils/idGenerator.ts, restricted to one task:
push the id if present, then recurse into subtasks in order. -/
def extractIdsTask : ITask → List Nat
  | .mk i _ _ _ _ _ su =>
    (match i with | some v => [v] | none => []) ++ extractIdsForest su
where
  /-- extractAllIds over a whole forest (tasks.forEach(extractFromTask)). -/
  extractIdsForest : List ITask → List Nat
    | [] => []
    | t :: ts => extractIdsTask t ++ extractIdsForest ts

export extractIdsTask (extractIdsForest)

example : extractIdsForest [ITask.mk (some 1) none none none none none
    [ITask.mk (some 2) none none none none none []]] = [1, 2] := rfl

/-- Error taxonomy of TaskManager.ts.  The classes TaskNotFoundError,
TaskStateUnknownError, NoFurtherStateError and TaskIdDuplicatedError are
declared there; getNextState in stateManager.ts throws a plain Error,
rendered as genericError. -/
inductive TErr where
  | taskNotFound (id : Nat)
  | taskStateUnknown (id : Nat) (state : String)
  | noFurtherState (id : Nat)
  | taskIdDuplicated (id : Nat)
  | genericError (msg : String)
deriving DecidableEq, Repr

/-! ## State machine: src/utils/stateManager.ts -/

/-- validateState: `availableStates.some(s => s.name === state)`. -/
def validateState (state : String) (availableStates : List TaskState) : Bool :=
  availableStates.any (fun st => st.name == state)

/-- getFinalState: `availableStates[availableStates.length - 1]!.name`.
The source asserts the list nonempty with `!`; the embedding returns the
name of a dummy state on the empty list. -/
def getFinalState (availableStates : List TaskState) : String :=
  (availableStates.getD (availableStates.length - 1) ⟨"", "", ""⟩).name

/-- getDefaultState: `availableStates[0]!.name`. -/
def getDefaultState (availableStates : List TaskState) : String :=
  (availableStates.getD 0 ⟨"", "", ""⟩).name

/-- `availableStates.findIndex(state => state.name === currentState)` with
`currentState` possibly undefined (none), in which case nothing matches. -/
def findStateIdx (current : Option String) : List TaskState → Option Nat
  | [] => none
  | st :: rest =>
    if current = some st.name then some 0 else (findStateIdx current rest).map (· + 1)

/-- getNextState: index of the current state; a missing state throws a plain
Error; the last index yields null (no further state); otherwise the name of
the following state. -/
def getNextState (current : Option String) (availableStates : List TaskState) :
    Except TErr (Option String) :=
  match findStateIdx current availableStates with
  | none => .error (.genericError "Unknown state")
  | some currentIndex =>
    if currentIndex = availableStates.length - 1 then .ok none
    else .ok (some ((availableStates.getD (currentIndex + 1) ⟨"", "", ""⟩).name))

/-! ## ID allocation: src/utils/idGenerator.ts -/

/-- The `while (existingIds.includes(id)) id++` scan of generateTaskId,
given enough fuel.  Among the integers 0..existingIds.length at least one
is absent from the list, so fuel `existingIds.length + 1` makes the fueled
scan compute exactly what the unbounded loop computes. -/
def scanGap (existingIds : List Nat) : Nat → Nat → Nat
  | 0, i => i
  | fuel + 1, i => if i ∈ existingIds then scanGap existingIds fuel (i + 1) else i

/-- generateTaskId: empty list gives 0; when the maximum equals
`length - 1` (sequential ids with no gap) append at `length`; otherwise
scan upward from 0 for the first absent integer. -/
def generateTaskId (existingIds : List Nat) : Nat :=
  if existingIds.length = 0 then 0
  else
    let maxInArray := existingIds.foldl Nat.max 0
    if maxInArray = existingIds.length - 1 then existingIds.length
    else scanGap existingIds (existingIds.length + 1) 0

/-- validateUniqueId from src/utils/idGenerator.ts (defined there, unused
by TaskManager). -/
def validateUniqueId (id : Nat) (existingIds : List Nat) : Bool :=
  !(existingIds.contains id)

/-! ## Forest primitives of TaskManager.ts

JavaScript mutates nodes found by reference; the embedding replaces the
first node found in the same search order. -/

/-- findTaskById rendered as an Option: check the node itself, then its
subtasks depth-first, then the rest of the forest (the try/catch in the
source continues the loop when the recursive search throws). -/
def findInForest (x : Nat) : List ITask → Option ITask
  | [] => none
  | .mk i n d s tm p su :: ts =>
    if i = some x then some (.mk i n d s tm p su)
    else match findInForest x su with
      | some r => some r
      | none => findInForest x ts

/-- Apply `f` to the first node found by the findTaskById search order,
rebuilding the forest; none when no node carries the id.  This renders the
source pattern `const t = findTaskById(id, datas); mutate(t)`. -/
def editInForest (x : Nat) (f : ITask → ITask) : List ITask → Option (List ITask)
  | [] => none
  | .mk i n d s tm p su :: ts =>
    if i = some x then some (f (.mk i n d s tm p su) :: ts)
    else match editInForest x f su with
      | some su2 => some (.mk i n d s tm p su2 :: ts)
      | none => (editInForest x f ts).map (ITask.mk i n d s tm p su :: ·)

/-- `findIndex(t => t.id === id)` followed by `splice(index, 1)`: remove the
first element of the list itself whose id matches, with its whole subtree. -/
def spliceById (x : Nat) : List ITask → Option (List ITask)
  | [] => none
  | t :: ts => if t.id = some x then some ts else (spliceById x ts).map (t :: ·)

/-- removeFromSubtasks from TaskManager.ts: for each task in order, first
try to splice the target out of its direct subtasks, then recurse deeper
into the subtasks, then move on to the next task. -/
def removeFromSubtasks (x : Nat) : List ITask → Option (List ITask)
  | [] => none
  | .mk i n d s tm p su :: ts =>
    match spliceById x su with
    | some su2 => some (.mk i n d s tm p su2 :: ts)
    | none =>
      match removeFromSubtasks x su with
      | some su2 => some (.mk i n d s tm p su2 :: ts)
      | none => (removeFromSubtasks x ts).map (ITask.mk i n d s tm p su :: ·)

/-- One iteration of the deleteTask loop: try the top level first, then
removeFromSubtasks; none means TaskNotFound. -/
def deleteOne (x : Nat) (datas : List ITask) : Option (List ITask) :=
  match spliceById x datas with
  | some datas2 => some datas2
  | none => removeFromSubtasks x datas

/-- Partial ITask as used for `taskData` and `updates`: a some field is a
property present on the object literal. -/
structure PartialTask where
  id : Option Nat := none
  name : Option String := none
  description : Option String := none
  state : Option String := none
  timestamp : Option String := none
  priority : Option Int := none
  subtasks : Option (List ITask) := none

/-- Object.assign(task, updates): every property present on `updates`
overwrites the corresponding property of `task`. -/
def assignUpdates (t : ITask) (u : PartialTask) : ITask :=
  match t with
  | .mk i n d s tm p su =>
    .mk (u.id.or i) (u.name.or n) (u.description.or d) (u.state.or s)
        (u.timestamp.or tm) (u.priority.or p) (u.subtasks.getD su)

/-- applyUpdatesRecursive: assign the updates to the node, then to every
node below it.  When the updates carry a `subtasks` property the source
recurses into the freshly assigned (shared) array and does not terminate on
a nonempty one; the embedding recurses into the original children instead,
and every claim settled below constrains the updates to carry no `subtasks`
property where this function is reached. -/
def applyUpdatesRecursive (u : PartialTask) : ITask → ITask
  | .mk i n d s tm p su =>
    match assignUpdates (.mk i n d s tm p su) u with
    | .mk i2 n2 d2 s2 tm2 p2 _ => .mk i2 n2 d2 s2 tm2 p2 (applyUpdatesForest u su)
where
  applyUpdatesForest (u : PartialTask) : List ITask → List ITask
    | [] => []
    | t :: ts => applyUpdatesRecursive u t :: applyUpdatesForest u ts

export applyUpdatesRecursive (applyUpdatesForest)

/-! ## TaskManager operations

Each public operation loads the stored file, works on the in-memory value
and saves on success.  `MResult` carries the outcome together with the file
that is stored on disk when the operation returns or throws: a save is the
only way the stored component changes, so an exception thrown before the
save leaves the pre-call file, and one thrown after an intermediate save
(moveTask) leaves that intermediate file. -/
inductive MResult (α : Type) where
  | ok (val : α) (stored : StorageFile)
  | err (e : TErr) (stored : StorageFile)

/-- addTask from TaskManager.ts.  `id` is the computed unique id (an
explicit id is honored only when truthy and unused).  The task literal then
spreads `...taskData` last, so every property present on taskData --
including a colliding id -- overwrites the computed defaults.  `now` stands
for generateTimestamp(). -/
def addTask (taskData : PartialTask) (parentId : Option Nat) (now : String)
    (s : StorageFile) : MResult Nat :=
  let allIds := extractIdsForest s.datas
  let id := match taskData.id with
    | some v => if v ≠ 0 ∧ v ∉ allIds then v else generateTaskId allIds
    | none => generateTaskId allIds
  let stateVal := taskData.state.getD (getDefaultState s.meta.states)
  let task : ITask := .mk (some (taskData.id.getD id))
      (some (taskData.name.getD "Untitled Task"))
      taskData.description
      (some stateVal)
      (some (taskData.timestamp.getD now))
      taskData.priority
      (taskData.subtasks.getD [])
  if validateState stateVal s.meta.states then
    match parentId with
    | some pid =>
      match editInForest pid (fun par => par.withSubtasks (par.subtasks ++ [task])) s.datas with
      | some datas2 => .ok id ⟨s.meta, datas2⟩
      | none => .err (.taskNotFound pid) s
    | none => .ok id ⟨s.meta, s.datas ++ [task]⟩
  else .err (.taskStateUnknown id stateVal) s

/-- The editTask loop body over the loaded forest: find each id (throwing
TaskNotFound), validate a truthy requested state (throwing
TaskStateUnknown; an empty-string state skips validation), and merge the
updates into the found node, recursively when requested. -/
def editTaskLoop (meta : Meta) (updates : PartialTask) (recursive : Bool) :
    List Nat → List ITask → Except TErr (List ITask)
  | [], datas => .ok datas
  | taskId :: rest, datas =>
    match findInForest taskId datas with
    | none => .error (.taskNotFound taskId)
    | some _ =>
      let f := if recursive then applyUpdatesRecursive updates
               else (assignUpdates · updates)
      let datas2 := (editInForest taskId f datas).getD datas
      match updates.state with
      | some st =>
        if st ≠ "" ∧ validateState st meta.states = false then
          .error (.taskStateUnknown taskId st)
        else editTaskLoop meta updates recursive rest datas2
      | none => editTaskLoop meta updates recursive rest datas2

/-- editTask from TaskManager.ts: one load, the loop, one save at the end;
an exception anywhere in the loop reaches the caller before the save. -/
def editTask (taskIds : List Nat) (updates : PartialTask) (recursive : Bool)
    (s : StorageFile) : MResult Unit :=
  match editTaskLoop s.meta updates recursive taskIds s.datas with
  | .error e => .err e s
  | .ok datas2 => .ok () ⟨s.meta, datas2⟩

/-- The deleteTask loop over the loaded forest. -/
def deleteLoop : List Nat → List ITask → Except TErr (List ITask)
  | [], datas => .ok datas
  | taskId :: rest, datas =>
    match deleteOne taskId datas with
    | some datas2 => deleteLoop rest datas2
    | none => .error (.taskNotFound taskId)

/-- deleteTask from TaskManager.ts: one load, the loop, one save. -/
def deleteTask (taskIds : List Nat) (s : StorageFile) : MResult Unit :=
  match deleteLoop taskIds s.datas with
  | .error e => .err e s
  | .ok datas2 => .ok () ⟨s.meta, datas2⟩

/-- The incrementTask loop: each iteration looks the task up in the forest
loaded at the start of incrementTask (s0, which goes stale after the first
save) and then runs a full editTask against the currently stored file. -/
def incrementLoop (s0 : StorageFile) (recursive : Bool) :
    List Nat → StorageFile → MResult Unit
  | [], st => .ok () st
  | taskId :: rest, st =>
    match findInForest taskId s0.datas with
    | none => .err (.taskNotFound taskId) st
    | some task =>
      match getNextState task.state s0.meta.states with
      | .error e => .err e st
      | .ok none => .err (.noFurtherState taskId) st
      | .ok (some nextState) =>
        match editTask [taskId] { state := some nextState } recursive st with
        | .err e st2 => .err e st2
        | .ok _ st2 => incrementLoop s0 recursive rest st2

/-- incrementTask from TaskManager.ts. -/
def incrementTask (taskIds : List Nat) (recursive : Bool) (s : StorageFile) :
    MResult Unit :=
  incrementLoop s recursive taskIds s

/-- completeTask from TaskManager.ts: one load to read the final state,
then a delegated editTask. -/
def completeTask (taskIds : List Nat) (recursive : Bool) (s : StorageFile) :
    MResult Unit :=
  editTask taskIds { state := some (getFinalState s.meta.states) } recursive s

/-- The moveTask loop: each iteration finds the task in the forest loaded
at the start (s0), deep-copies it, runs a full deleteTask (which saves),
reloads, resolves the new parent in the reloaded forest and saves again. -/
def moveLoop (s0 : StorageFile) (newParentId : Nat) :
    List Nat → StorageFile → MResult Unit
  | [], st => .ok () st
  | taskId :: rest, st =>
    match findInForest taskId s0.datas with
    | none => .err (.taskNotFound taskId) st
    | some task =>
      match deleteTask [taskId] st with
      | .err e st2 => .err e st2
      | .ok _ st2 =>
        match editInForest newParentId
            (fun par => par.withSubtasks (par.subtasks ++ [task])) st2.datas with
        | none => .err (.taskNotFound newParentId) st2
        | some datas2 => moveLoop s0 newParentId rest ⟨st2.meta, datas2⟩

/-- moveTask from TaskManager.ts: verify the new parent exists in the
initially loaded forest, then run the per-id delete/reload/append loop. -/
def moveTask (taskIds : List Nat) (newParentId : Nat) (s : StorageFile) :
    MResult Unit :=
  match findInForest newParentId s.datas with
  | none => .err (.taskNotFound newParentId) s
  | some _ => moveLoop s newParentId taskIds s

/-! ## Defaults from src/types/cli.ts -/

/-- DEFAULT_TASK_STATES: todo, currently_doing, done. -/
def DEFAULT_TASK_STATES : List TaskState :=
  [⟨"todo", "#ff8f00", "☐"⟩, ⟨"currently_doing", "#ab47bc", "✹"⟩,
   ⟨"done", "#66bb6a", "✔"⟩]

/-- DEFAULT_STORAGE_DATA: the default meta with an empty forest. -/
def DEFAULT_STORAGE_DATA : StorageFile :=
  ⟨⟨DEFAULT_TASK_STATES⟩, []⟩

/-! ## Storage engine: the UserStorage half of src/core/UserConfig.ts

Two views of the per-user file system are used.  For saveStorage and the
backup machinery the content of a file is the StorageFile document it
serializes (JSON.stringify is deterministic, so document equality is
content equality).  For loadStorage the content is a parsed JSON value, so
that the shape validation can be expressed. -/

/-- The per-user directory for the save/backup model: the primary
tasks.json content, if the file exists, and the backup directory as a list
of (file name, content) pairs. -/
structure TaskFS where
  tasksFile : Option StorageFile
  backups : List (String × StorageFile)

namespace UserStorage

/-- saveStorage: ensure the directories exist, serialize, write to a temp
file and rename it over tasks.json.  Nothing else is touched: the rename is
the whole effect. -/
def saveStorage (data : StorageFile) (fs : TaskFS) : TaskFS :=
  ⟨some data, fs.backups⟩

/-- createBackup: copy tasks.json to `tasks-<timestamp>.json` in the backup
directory; when the primary file is missing, write a default-content backup
instead.  `now` stands for the sanitized ISO timestamp. -/
def createBackup (now : String) (fs : TaskFS) : TaskFS :=
  let backupFile := "tasks-" ++ now ++ ".json"
  match fs.tasksFile with
  | some doc => ⟨fs.tasksFile, fs.backups ++ [(backupFile, doc)]⟩
  | none => ⟨fs.tasksFile, fs.backups ++ [(backupFile, DEFAULT_STORAGE_DATA)]⟩

/-- listBackups: readdir, keep names starting with `tasks-` and ending in
`.json`, sort lexicographically, most recent (largest) first. -/
def listBackups (fs : TaskFS) : List String :=
  ((((fs.backups.map Prod.fst).filter
      (fun file => file.startsWith "tasks-" && file.endsWith ".json")).insertionSort
      (fun a b => a ≤ b)).reverse)

/-- cleanupBackups: when more than keepCount backups are listed, unlink
every listed name beyond the first keepCount. -/
def cleanupBackups (keepCount : Nat) (fs : TaskFS) : TaskFS :=
  let backups := listBackups fs
  if backups.length > keepCount then
    let toDelete := backups.drop keepCount
    ⟨fs.tasksFile, fs.backups.filter (fun nb => !(toDelete.contains nb.1))⟩
  else fs

end UserStorage

/-! ## Parsed JSON model for loadStorage -/

/-- CorruptStorage: the persisted file fails the minimal shape validation. -/
inductive StorageErr where
  | corruptStorage
deriving DecidableEq, Repr

/-- A parsed JSON document. -/
inductive Json where
  | null
  | bool (b : Bool)
  | num (n : Int)
  | str (s : String)
  | arr (elems : List Json)
  | obj (fields : List (String × Json))

/-- JavaScript member access `v.k`: a property of an object, undefined
(none) on anything else.  (On null the access throws a TypeError, which the
surrounding catch also turns into a load failure; the shape check below
reaches such an access only behind a truthiness guard.) -/
def Json.getField : Json → String → Option Json
  | .obj fields, k => (fields.find? (fun kv => kv.1 == k)).map (·.2)
  | _, _ => none

/-- JavaScript truthiness of a possibly-undefined value. -/
def Json.truthy : Option Json → Bool
  | none => false
  | some .null => false
  | some (.bool b) => b
  | some (.num n) => !(n == 0)
  | some (.str s) => !(s == "")
  | some (.arr _) => true
  | some (.obj _) => true

/-- Array.isArray of a possibly-undefined value. -/
def Json.isArray : Option Json → Bool
  | some (.arr _) => true
  | _ => false

/-- The loadStorage validation, negated: the source throws when
`!data.meta || !data.datas || !Array.isArray(data.meta.states) ||
!Array.isArray(data.datas)`, with JavaScript short-circuit evaluation. -/
def validStorageShape (data : Json) : Bool :=
  Json.truthy (data.getField "meta") && Json.truthy (data.getField "datas")
    && Json.isArray ((data.getField "meta").bind (fun m => m.getField "states"))
    && Json.isArray (data.getField "datas")

/-- JSON encoding of a TaskState object literal. -/
def encodeState (st : TaskState) : Json :=
  .obj [("name", .str st.name), ("hexColor", .str st.hexColor),
        ("icon", .str st.icon)]

/-- JSON encoding of a task: JSON.stringify skips absent (undefined)
properties; keys follow the interface declaration order.  A task whose
subtasks list is empty is emitted without the key (the embedding does not
distinguish an absent subtasks array from an empty one, and no settled
claim inspects the encoding of a nonempty forest). -/
def encodeTask : ITask → Json
  | .mk i n d s tm p su =>
    .obj ((match n with | some v => [("name", Json.str v)] | none => []) ++
      (match d with | some v => [("description", Json.str v)] | none => []) ++
      (match i with | some v => [("id", Json.num v)] | none => []) ++
      (match su with
        | [] => []
        | l => [("subtasks", Json.arr (encodeForest l))]) ++
      (match tm with | some v => [("timestamp", Json.str v)] | none => []) ++
      (match s with | some v => [("state", Json.str v)] | none => []) ++
      (match p with | some v => [("priority", Json.num v)] | none => []))
where
  encodeForest : List ITask → List Json
    | [] => []
    | t :: ts => encodeTask t :: encodeForest ts

/-- JSON encoding of a whole StorageFile. -/
def encodeStorage (file : StorageFile) : Json :=
  .obj [("meta", .obj [("states", .arr (file.meta.states.map encodeState))]),
        ("datas", .arr (encodeTask.encodeForest file.datas))]

/-- The per-user directory as seen by loadStorage: the parsed content of
tasks.json when the file exists. -/
structure JsonFS where
  tasksFile : Option Json

namespace UserStorage

/-- initialize: create the directories and, when tasks.json is missing,
write the serialized DEFAULT_STORAGE_DATA. -/
def initStorage (fs : JsonFS) : JsonFS :=
  match fs.tasksFile with
  | some _ => fs
  | none => ⟨some (encodeStorage DEFAULT_STORAGE_DATA)⟩

/-- loadStorage: a missing file (ENOENT) triggers initialization and
returns DEFAULT_STORAGE_DATA; an existing file is parsed and its top-level
shape validated, any other failure (including the shape throw) reaching the
caller as an error.  The parsed document is returned as-is (the source just
casts it to StorageFile). -/
def loadStorage (fs : JsonFS) : Except StorageErr Json × JsonFS :=
  match fs.tasksFile with
  | none => (.ok (encodeStorage DEFAULT_STORAGE_DATA), initStorage fs)
  | some data =>
    if validStorageShape data then (.ok data, fs)
    else (.error .corruptStorage, fs)

end UserStorage

/-! ## Basic lemmas about the forest primitives -/

/-- The contribution of an optional id to extractAllIds. -/
def optIdList : Option Nat → List Nat
  | some v => [v]
  | none => []

theorem mem_optIdList {x : Nat} {i : Option Nat} :
    x ∈ optIdList i ↔ i = some x := by
  cases i <;> simp [optIdList, eq_comm]

theorem extractIdsTask_mk {i n d s tm p su} :
    extractIdsTask (.mk i n d s tm p su) = optIdList i ++ extractIdsForest su := by
  rw [extractIdsTask.eq_def]
  cases i <;> rfl

theorem extractIdsForest_cons {t : ITask} {ts : List ITask} :
    extractIdsForest (t :: ts) = extractIdsTask t ++ extractIdsForest ts := by
  rw [extractIdsForest]

theorem extractIdsForest_nil : extractIdsForest [] = [] := by
  rw [extractIdsForest]

/-- An id is findable in a forest exactly when extractAllIds lists it. -/
theorem find_isSome_iff_mem (x : Nat) (l : List ITask) :
    (findInForest x l).isSome ↔ x ∈ extractIdsForest l := by
  induction l using findInForest.induct x with
  | case1 => simp [findInForest, extractIdsForest_nil]
  | case2 n d s tm p su ts =>
    rw [findInForest]
    simp [extractIdsForest_cons, extractIdsTask_mk, mem_optIdList]
  | case3 i n d s tm p su ts hne r hr ih =>
    rw [findInForest]
    rw [hr] at ih ⊢
    simp only [if_neg hne]
    simp only [Option.isSome_some, true_iff] at ih
    simp [extractIdsForest_cons, extractIdsTask_mk, ih]
  | case4 i n d s tm p su ts hne hnone ihsu ihts =>
    rw [findInForest]
    rw [hnone] at ihsu ⊢
    simp only [if_neg hne]
    simp only [Option.isSome_none, Bool.false_eq_true, false_iff] at ihsu
    simp only [extractIdsForest_cons, extractIdsTask_mk, List.mem_append, mem_optIdList]
    rw [ihts]
    constructor
    · intro h; right; exact h
    · rintro ((h | h) | h)
      · exact absurd h hne
      · exact absurd h ihsu
      · exact h

theorem find_none_iff_not_mem (x : Nat) (l : List ITask) :
    findInForest x l = none ↔ x ∉ extractIdsForest l := by
  rw [← find_isSome_iff_mem]
  cases findInForest x l <;> simp

/-- The node found by findTaskById carries the id searched for. -/
theorem find_id {x : Nat} {l : List ITask} {t : ITask}
    (h : findInForest x l = some t) : t.id = some x := by
  induction l using findInForest.induct x with
  | case1 => simp [findInForest] at h
  | case2 n d s tm p su ts =>
    rw [findInForest] at h
    simp at h
    rw [← h]
    rfl
  | case3 i n d s tm p su ts hne r hr ih =>
    rw [findInForest] at h
    simp only [if_neg hne, hr] at h
    cases h
    exact ih hr
  | case4 i n d s tm p su ts hne hnone ihsu ihts =>
    rw [findInForest] at h
    simp only [if_neg hne, hnone] at h
    exact ihts h

/-- A found task contributes its own id to extractAllIds of itself. -/
theorem mem_extract_self {x : Nat} {t : ITask} (h : t.id = some x) :
    x ∈ extractIdsTask t := by
  cases t with
  | mk i n d s tm p su =>
    rw [extractIdsTask_mk]
    simp only [ITask.id] at h
    simp [h, mem_optIdList]

/-- editInForest succeeds exactly where findTaskById succeeds. -/
theorem edit_isSome_eq_find_isSome (x : Nat) (f : ITask → ITask) (l : List ITask) :
    (editInForest x f l).isSome = (findInForest x l).isSome := by
  induction l using findInForest.induct x with
  | case1 => simp [findInForest, editInForest]
  | case2 n d s tm p su ts =>
    rw [findInForest, editInForest]
    simp
  | case3 i n d s tm p su ts hne r hr ih =>
    rw [findInForest, editInForest]
    simp only [if_neg hne, hr]
    rw [hr] at ih
    simp only [Option.isSome_some] at ih
    cases hedit : editInForest x f su with
    | some su2 => simp
    | none => rw [hedit] at ih; simp at ih
  | case4 i n d s tm p su ts hne hnone ihsu ihts =>
    rw [findInForest, editInForest]
    simp only [if_neg hne, hnone]
    rw [hnone] at ihsu
    simp only [Option.isSome_none] at ihsu
    cases hedit : editInForest x f su with
    | some su2 => rw [hedit] at ihsu; simp at ihsu
    | none =>
      cases hts : editInForest x f ts <;> cases hfts : findInForest x ts <;>
        rw [hts, hfts] at ihts <;> simp_all

/-- Accessor form of the findInForest cons equation. -/
theorem findInForest_cons {x : Nat} {t : ITask} {ts : List ITask} :
    findInForest x (t :: ts) =
      if t.id = some x then some t
      else match findInForest x t.subtasks with
        | some r => some r
        | none => findInForest x ts := by
  cases t with
  | mk i n d s tm p su => rw [findInForest]; rfl

/-- Accessor form of the editInForest cons equation. -/
theorem editInForest_cons {x : Nat} {f : ITask → ITask} {t : ITask} {ts : List ITask} :
    editInForest x f (t :: ts) =
      if t.id = some x then some (f t :: ts)
      else match editInForest x f t.subtasks with
        | some su2 => some (t.withSubtasks su2 :: ts)
        | none => (editInForest x f ts).map (t :: ·) := by
  cases t with
  | mk i n d s tm p su => rw [editInForest]; rfl

/-- Editing the node found by findTaskById: when the function keeps the id
on the found node, the edited forest exists and findTaskById retrieves the
edited node from it. -/
theorem find_edit {x : Nat} {f : ITask → ITask} {l : List ITask} {t : ITask}
    (hfind : findInForest x l = some t) (hid : (f t).id = some x) :
    ∃ l2, editInForest x f l = some l2 ∧ findInForest x l2 = some (f t) := by
  induction l using findInForest.induct x with
  | case1 => simp [findInForest] at hfind
  | case2 n d s tm p su ts =>
    rw [findInForest] at hfind
    simp at hfind
    subst hfind
    refine ⟨f (.mk (some x) n d s tm p su) :: ts, ?_, ?_⟩
    · rw [editInForest]; simp
    · rw [findInForest_cons]
      simp [hid]
  | case3 i n d s tm p su ts hne r hr ih =>
    rw [findInForest] at hfind
    simp only [if_neg hne, hr] at hfind
    cases hfind
    obtain ⟨su2, hsu2, hfsu2⟩ := ih hr
    refine ⟨.mk i n d s tm p su2 :: ts, ?_, ?_⟩
    · rw [editInForest]
      simp only [if_neg hne, hsu2]
    · rw [findInForest]
      simp only [if_neg hne, hfsu2]
  | case4 i n d s tm p su ts hne hnone ihsu ihts =>
    rw [findInForest] at hfind
    simp only [if_neg hne, hnone] at hfind
    obtain ⟨ts2, hts2, hfts2⟩ := ihts hfind
    have hsunone : editInForest x f su = none := by
      have hiso := edit_isSome_eq_find_isSome x f su
      rw [hnone] at hiso
      cases h : editInForest x f su
      · rfl
      · rw [h] at hiso; simp at hiso
    refine ⟨.mk i n d s tm p su :: ts2, ?_, ?_⟩
    · rw [editInForest]
      simp only [if_neg hne, hsunone, hts2]
      rfl
    · rw [findInForest]
      simp only [if_neg hne, hnone, hfts2]

/-- Editing with a function that does not change the id structure of any
node leaves extractAllIds of the forest unchanged. -/
theorem edit_extract_eq {x : Nat} {f : ITask → ITask}
    (hf : ∀ t, extractIdsTask (f t) = extractIdsTask t) (l : List ITask) :
    ∀ l2, editInForest x f l = some l2 →
      extractIdsForest l2 = extractIdsForest l := by
  induction l using findInForest.induct x with
  | case1 => intro l2 h; simp [editInForest] at h
  | case2 n d s tm p su ts =>
    intro l2 h
    rw [editInForest] at h
    simp at h
    rw [← h, extractIdsForest_cons, extractIdsForest_cons, hf]
  | case3 i n d s tm p su ts hne r hr ih =>
    intro l2 h
    rw [editInForest] at h
    simp only [if_neg hne] at h
    cases hsu : editInForest x f su with
    | some su2 =>
      rw [hsu] at h
      cases h
      rw [extractIdsForest_cons, extractIdsForest_cons,
        extractIdsTask_mk, extractIdsTask_mk, ih su2 hsu]
    | none =>
      have hiso := edit_isSome_eq_find_isSome x f su
      rw [hsu, hr] at hiso
      simp at hiso
  | case4 i n d s tm p su ts hne hnone ihsu ihts =>
    intro l2 h
    rw [editInForest] at h
    simp only [if_neg hne] at h
    have hsunone : editInForest x f su = none := by
      have hiso := edit_isSome_eq_find_isSome x f su
      rw [hnone] at hiso
      cases hh : editInForest x f su
      · rfl
      · rw [hh] at hiso; simp at hiso
    rw [hsunone] at h
    cases hts : editInForest x f ts with
    | some ts2 =>
      rw [hts] at h
      simp at h
      rw [← h, extractIdsForest_cons, extractIdsForest_cons, ihts ts2 hts]
    | none => rw [hts] at h; simp at h

/-! ## Lemmas about the ID allocator -/

theorem base_le_foldl_max (l : List Nat) : ∀ a, a ≤ l.foldl Nat.max a := by
  induction l with
  | nil => intro a; simp
  | cons b t ih =>
    intro a
    calc a ≤ Nat.max a b := Nat.le_max_left a b
    _ ≤ t.foldl Nat.max (Nat.max a b) := ih (Nat.max a b)

theorem le_foldl_max (l : List Nat) : ∀ a, ∀ x ∈ l, x ≤ l.foldl Nat.max a := by
  induction l with
  | nil => intro a x hx; simp at hx
  | cons b t ih =>
    intro a x hx
    rcases List.mem_cons.mp hx with h | h
    · subst h
      calc x ≤ Nat.max a x := Nat.le_max_right a x
      _ ≤ t.foldl Nat.max (Nat.max a x) := base_le_foldl_max t (Nat.max a x)
    · exact ih (Nat.max a b) x h

/-- The fueled while-loop scan: given any absent value within fuel reach,
it stops at an absent value and every skipped value was present. -/
theorem scanGap_spec (ids : List Nat) :
    ∀ fuel i, (∃ j, j ∉ ids ∧ i ≤ j ∧ j < i + fuel) →
      scanGap ids fuel i ∉ ids ∧ i ≤ scanGap ids fuel i ∧
        ∀ m, i ≤ m → m < scanGap ids fuel i → m ∈ ids := by
  intro fuel
  induction fuel with
  | zero =>
    intro i ⟨j, _, hij, hj⟩
    omega
  | succ fuel ih =>
    intro i hex
    rw [scanGap]
    by_cases hmem : i ∈ ids
    · simp only [if_pos hmem]
      obtain ⟨j, hj, hij, hjf⟩ := hex
      have hne : j ≠ i := fun he => hj (he ▸ hmem)
      obtain ⟨h1, h2, h3⟩ := ih (i + 1) ⟨j, hj, by omega, by omega⟩
      refine ⟨h1, by omega, ?_⟩
      intro m him hm
      by_cases hmi : m = i
      · exact hmi ▸ hmem
      · exact h3 m (by omega) hm
    · simp only [if_neg hmem]
      exact ⟨hmem, le_rfl, by omega⟩

/-- Pigeonhole: some value in 0..l.length is missing from l. -/
theorem exists_gap (l : List Nat) : ∃ j, j ∉ l ∧ j ≤ l.length := by
  by_contra hcon
  push_neg at hcon
  have hsub : Finset.range (l.length + 1) ⊆ l.toFinset := by
    intro j hj
    rw [Finset.mem_range] at hj
    rw [List.mem_toFinset]
    by_contra hj2
    exact absurd (hcon j hj2) (by omega)
  have hcard := Finset.card_le_card hsub
  rw [Finset.card_range] at hcard
  have := l.toFinset_card_le
  omega

/-- C6 helper: on a duplicate-free list, generateTaskId computes the least
absent non-negative integer. -/
theorem generateTaskId_least (l : List Nat) (h : l.Nodup) :
    generateTaskId l ∉ l ∧ ∀ m, m < generateTaskId l → m ∈ l := by
  rw [generateTaskId]
  by_cases hlen : l.length = 0
  · simp only [if_pos hlen]
    rw [List.length_eq_zero] at hlen
    subst hlen
    exact ⟨by simp, by omega⟩
  · simp only [if_neg hlen]
    by_cases hmax : l.foldl Nat.max 0 = l.length - 1
    · simp only [if_pos hmax]
      have hsub : l.toFinset ⊆ Finset.range l.length := by
        intro x hx
        rw [List.mem_toFinset] at hx
        rw [Finset.mem_range]
        have := le_foldl_max l 0 x hx
        omega
      have heq : l.toFinset = Finset.range l.length := by
        apply Finset.eq_of_subset_of_card_le hsub
        rw [Finset.card_range, List.toFinset_card_of_nodup h]
      constructor
      · intro hmem
        have := le_foldl_max l 0 _ hmem
        omega
      · intro m hm
        rw [← List.mem_toFinset, heq, Finset.mem_range]
        exact hm
    · simp only [if_neg hmax]
      obtain ⟨j, hj, hjle⟩ := exists_gap l
      obtain ⟨h1, _, h3⟩ := scanGap_spec l (l.length + 1) 0 ⟨j, hj, by omega, by omega⟩
      exact ⟨h1, fun m hm => h3 m (by omega) hm⟩

/-! ## Claim C6 -/

/-- C6: for every duplicate-free list of non-negative integers,
generateTaskId returns the smallest non-negative integer not in the list
(so 0 for the empty list, n when the list is a permutation of
0..n-1, and the lowest gap otherwise). -/
theorem claim_C6_generateTaskId_least (l : List Nat) (h : l.Nodup) :
    (generateTaskId l ∉ l ∧ ∀ m, m < generateTaskId l → m ∈ l) ∧
    (l = [] → generateTaskId l = 0) ∧
    (∀ n, l.Perm (List.range n) → generateTaskId l = n) := by
  obtain ⟨h1, h2⟩ := generateTaskId_least l h
  refine ⟨⟨h1, h2⟩, ?_, ?_⟩
  · intro he
    subst he
    rfl
  · intro n hperm
    have hmemiff : ∀ m, m ∈ l ↔ m < n := by
      intro m
      rw [hperm.mem_iff, List.mem_range]
    rcases Nat.lt_trichotomy (generateTaskId l) n with hlt | heq | hgt
    · exact absurd ((hmemiff _).mpr hlt) h1
    · exact heq
    · have hn := h2 n hgt
      rw [hmemiff] at hn
      omega

/-- C6 witness: the concrete list [0, 1, 3] is duplicate-free and the
theorem applies; its allocation fills the gap at 2. -/
theorem claim_C6_witness :
    List.Nodup [0, 1, 3] ∧
      ((generateTaskId [0, 1, 3] ∉ [0, 1, 3] ∧
          ∀ m, m < generateTaskId [0, 1, 3] → m ∈ [0, 1, 3]) ∧
        ([0, 1, 3] = ([] : List Nat) → generateTaskId [0, 1, 3] = 0) ∧
        (∀ n, List.Perm [0, 1, 3] (List.range n) → generateTaskId [0, 1, 3] = n)) :=
  ⟨by decide, claim_C6_generateTaskId_least [0, 1, 3] (by decide)⟩

/-! ## Result projections and shared concrete fixtures -/

/-- The file stored on disk when the operation returns or throws. -/
def MResult.stored : MResult α → StorageFile
  | .ok _ s => s
  | .err _ s => s

/-- Did the operation return without throwing. -/
def MResult.isOk : MResult α → Bool
  | .ok _ _ => true
  | .err _ _ => false

/-- The returned value of a successful operation. -/
def MResult.okValue : MResult α → Option α
  | .ok v _ => some v
  | .err _ _ => none

/-- Did the operation throw TaskIdDuplicatedError. -/
def MResult.isDuplicatedErr : MResult α → Bool
  | .err (.taskIdDuplicated _) _ => true
  | _ => false

/-- The default meta, as stored for a fresh user. -/
def defaultMeta : Meta := ⟨DEFAULT_TASK_STATES⟩

/-- A task with id 1 in the default state. -/
def taskA : ITask := .mk (some 1) (some "A") none (some "todo") (some "01/01/2024") none []

/-- A one-task storage file. -/
def storageA : StorageFile := ⟨defaultMeta, [taskA]⟩

/-! ## Claims C2, C3, C4: addTask and explicit ids

In the source, addTask computes `id` so that an explicit caller-supplied id
is honored only when truthy and unused, but the task literal then spreads
`...taskData` after the computed fields, so a present `taskData.id`
overwrites the computed id on the stored task while addTask still returns
the computed one.  TaskIdDuplicatedError is declared and never thrown. -/

/-- C2 (failing input): on the forest [task id 1] (duplicate-free), adding
a task with explicit id 1 succeeds and persists a forest whose extracted
ids are [1, 1] -- two nodes share an id, so the uniqueness invariant is not
preserved by addTask. -/
theorem claim_C2_addTask_breaks_uniqueness :
    List.Nodup (extractIdsForest storageA.datas) ∧
    (addTask { id := some 1, name := some "B" } none "02/01/2024" storageA).isOk = true ∧
    extractIdsForest
      ((addTask { id := some 1, name := some "B" } none "02/01/2024" storageA).stored).datas
      = [1, 1] ∧
    ¬ List.Nodup
      (extractIdsForest
        ((addTask { id := some 1, name := some "B" } none "02/01/2024" storageA).stored).datas) := by
  refine ⟨?_, rfl, ?_, ?_⟩
  · decide
  · rfl
  · intro h
    rw [show extractIdsForest
      ((addTask { id := some 1, name := some "B" } none "02/01/2024" storageA).stored).datas
      = [1, 1] from rfl] at h
    simp at h

/-- C3 (failing input): same call; a fresh id 0 is allocated and returned,
but the task appended to the forest carries the colliding id 1, not the
returned fresh id. -/
theorem claim_C3_addTask_stored_id_differs :
    (addTask { id := some 1, name := some "B" } none "02/01/2024" storageA).okValue
        = some 0 ∧
    ((addTask { id := some 1, name := some "B" } none "02/01/2024" storageA).stored).datas
      = [taskA, .mk (some 1) (some "B") none (some "todo") (some "02/01/2024") none []] ∧
    (ITask.mk (some 1) (some "B") none (some "todo") (some "02/01/2024") none []).id
      ≠ some 0 :=
  ⟨rfl, rfl, by decide⟩

/-- C4 counterexample: the claim says a colliding explicit id makes addTask
fail with TaskIdDuplicatedError and leave the forest unchanged; on the
concrete collision input the call instead returns ok and the stored forest
has grown. -/
theorem claim_C4_counterexample :
    (addTask { id := some 1, name := some "B" } none "02/01/2024" storageA).isOk = true ∧
    (addTask { id := some 1, name := some "B" } none "02/01/2024" storageA).isDuplicatedErr
        = false ∧
    ((addTask { id := some 1, name := some "B" } none "02/01/2024" storageA).stored).datas.length
        = 2 ∧
    storageA.datas.length = 1 :=
  ⟨rfl, rfl, rfl, rfl⟩

/-- C4 (amended): addTask never throws TaskIdDuplicatedError on any input;
a colliding explicit id is not an error condition of the id-assignment
step. -/
theorem claim_C4_no_duplicate_error (taskData : PartialTask) (parentId : Option Nat)
    (now : String) (s : StorageFile) :
    (addTask taskData parentId now s).isDuplicatedErr = false := by
  rw [addTask.eq_def]
  split <;> dsimp only <;> [skip; (split <;> [(split <;> [(split <;> rfl); rfl]); rfl])]
  split <;> [(split <;> [(split <;> rfl); rfl]); rfl]

/-! ## Lemmas about Object.assign -/

theorem assignUpdates_id (t : ITask) (u : PartialTask) :
    (assignUpdates t u).id = u.id.or t.id := by
  cases t <;> rfl

theorem assignUpdates_state (t : ITask) (u : PartialTask) :
    (assignUpdates t u).state = u.state.or t.state := by
  cases t <;> rfl

/-- Updates carrying neither id nor subtasks leave the id structure of the
assigned node unchanged. -/
theorem assignUpdates_extract (u : PartialTask) (hid : u.id = none)
    (hsub : u.subtasks = none) (t : ITask) :
    extractIdsTask (assignUpdates t u) = extractIdsTask t := by
  cases t with
  | mk i n d s tm p su =>
    rw [assignUpdates, hid, hsub]
    rw [extractIdsTask_mk, extractIdsTask_mk]
    simp

/-- Updates carrying neither id nor subtasks leave the id structure
unchanged under the recursive application as well. -/
theorem applyUpdatesRecursive_extract (u : PartialTask) (hid : u.id = none)
    (hsub : u.subtasks = none) :
    ∀ t, extractIdsTask (applyUpdatesRecursive u t) = extractIdsTask t := by
  have key : ∀ m, (∀ t : ITask, sizeOf t ≤ m →
        extractIdsTask (applyUpdatesRecursive u t) = extractIdsTask t) ∧
      (∀ l : List ITask, sizeOf l ≤ m →
        extractIdsForest (applyUpdatesForest u l) = extractIdsForest l) := by
    intro m
    induction m with
    | zero =>
      constructor
      · intro t ht; cases t with | mk i n d s tm p su => simp at ht
      · intro l hl
        cases l with
        | nil => rw [applyUpdatesForest]
        | cons a b => simp at hl
    | succ m ih =>
      constructor
      · intro t ht
        cases t with
        | mk i n d s tm p su =>
          rw [applyUpdatesRecursive, assignUpdates, hid, hsub]
          dsimp only
          rw [extractIdsTask_mk, extractIdsTask_mk]
          simp only [Option.none_or]
          have hsu := ih.2 su (by simp at ht; omega)
          rw [hsu]
      · intro l hl
        cases l with
        | nil => rw [applyUpdatesForest]
        | cons a b =>
          rw [applyUpdatesForest]
          rw [extractIdsForest_cons, extractIdsForest_cons]
          simp at hl
          rw [ih.1 a (by omega), ih.2 b (by omega)]
  intro t
  exact (key (sizeOf t)).1 t le_rfl

/-! ## Claim C9: editTask skips validation of an empty-string state -/

/-- C9: the state validation in editTask runs only when the requested
state is truthy, so an update setting state to the empty string is merged
and persisted without TaskStateUnknown, even when the empty string names no
configured state: the stored task then has a state outside meta.states. -/
theorem claim_C9_empty_state_skips_validation
    (s : StorageFile) (tid : Nat) (task : ITask)
    (hfind : findInForest tid s.datas = some task)
    (hval : validateState "" s.meta.states = false) :
    ∃ datas2,
      editTask [tid] { state := some "" } false s = .ok () ⟨s.meta, datas2⟩ ∧
      findInForest tid datas2 = some (assignUpdates task { state := some "" }) ∧
      (assignUpdates task { state := some "" }).state = some "" ∧
      validateState "" s.meta.states = false := by
  have hid : (assignUpdates task { state := some "" }).id = some tid := by
    rw [assignUpdates_id, find_id hfind]
    rfl
  obtain ⟨l2, hedit, hfind2⟩ :=
    find_edit (f := fun t => assignUpdates t { state := some "" }) hfind hid
  refine ⟨l2, ?_, hfind2, ?_, hval⟩
  · rw [editTask]
    rw [editTaskLoop]
    rw [hfind]
    dsimp only
    simp only [Bool.false_eq_true, if_false]
    rw [hedit]
    dsimp only [Option.getD_some]
    rw [if_neg (by simp)]
    rw [editTaskLoop]
  · rw [assignUpdates_state]
    rfl

/-- C9 witness: on the one-task default storage the empty-string edit goes
through and persists state "". -/
theorem claim_C9_witness :
    ∃ datas2,
      editTask [1] { state := some "" } false storageA = .ok () ⟨storageA.meta, datas2⟩ ∧
      findInForest 1 datas2 = some (assignUpdates taskA { state := some "" }) ∧
      (assignUpdates taskA { state := some "" }).state = some "" ∧
      validateState "" storageA.meta.states = false :=
  claim_C9_empty_state_skips_validation storageA 1 taskA
    (by simp [findInForest, storageA, taskA]) (by rfl)

/-! ## Claim C5: batch edit with an unknown id -/

/-- The editTaskLoop abort lemma: when the updates keep the id structure
intact (no id, no subtasks property) and any requested state passes or
skips validation, a batch containing an id unknown in the loaded forest
always aborts with TaskNotFound for such an id. -/
theorem editTaskLoop_unknown_aborts (meta : Meta) (u : PartialTask) (recursive : Bool)
    (hid : u.id = none) (hsub : u.subtasks = none)
    (hstate : ∀ st, u.state = some st → st = "" ∨ validateState st meta.states = true) :
    ∀ ids datas, (∃ tid ∈ ids, findInForest tid datas = none) →
      ∃ tid ∈ ids, findInForest tid datas = none ∧
        editTaskLoop meta u recursive ids datas = .error (.taskNotFound tid) := by
  intro ids
  induction ids with
  | nil =>
    intro datas ⟨tid, hmem, _⟩
    simp at hmem
  | cons tid rest ih =>
    intro datas hex
    cases hfind : findInForest tid datas with
    | none =>
      refine ⟨tid, List.mem_cons_self tid rest, hfind, ?_⟩
      rw [editTaskLoop, hfind]
    | some task =>
      obtain ⟨tid0, hmem0, hnone0⟩ := hex
      have htid0 : tid0 ∈ rest := by
        rcases List.mem_cons.mp hmem0 with he | hr
        · subst he; rw [hfind] at hnone0; cases hnone0
        · exact hr
      have hiso := edit_isSome_eq_find_isSome tid
        (if recursive then applyUpdatesRecursive u else (assignUpdates · u)) datas
      rw [hfind] at hiso
      cases hedit : editInForest tid
          (if recursive then applyUpdatesRecursive u else (assignUpdates · u)) datas with
      | none => rw [hedit] at hiso; simp at hiso
      | some l2 =>
        have hpres : ∀ t, extractIdsTask
            ((if recursive then applyUpdatesRecursive u else (assignUpdates · u)) t)
              = extractIdsTask t := by
          intro t
          cases recursive with
          | true => simpa using applyUpdatesRecursive_extract u hid hsub t
          | false => simpa using assignUpdates_extract u hid hsub t
        have hextract := edit_extract_eq hpres datas l2 hedit
        have hnone2 : findInForest tid0 l2 = none := by
          rw [find_none_iff_not_mem, hextract, ← find_none_iff_not_mem]
          exact hnone0
        obtain ⟨te, hteMem, hteNone, hteLoop⟩ := ih l2 ⟨tid0, htid0, hnone2⟩
        have hteNoneOrig : findInForest te datas = none := by
          rw [find_none_iff_not_mem, ← hextract, ← find_none_iff_not_mem]
          exact hteNone
        refine ⟨te, List.mem_cons_of_mem tid hteMem, hteNoneOrig, ?_⟩
        rw [editTaskLoop, hfind]
        dsimp only
        rw [hedit]
        dsimp only [Option.getD_some]
        cases hst : u.state with
        | none => exact hteLoop
        | some st =>
          dsimp only
          rcases hstate st hst with he | hv
          · subst he
            rw [if_neg (by simp)]
            exact hteLoop
          · rw [if_neg (by simp [hv])]
            exact hteLoop

/-- C5 (amended): a batch containing an id that resolves to no node aborts
with TaskNotFound and persists nothing, provided the updates carry no id or
subtasks property and any requested state is empty or configured.  (The
counterexample shows the unqualified claim fails: updates carrying an id can
make the whole batch succeed, and an unconfigured non-empty state makes the
abort a TaskStateUnknown instead.) -/
theorem claim_C5_unknown_id_aborts_batch (s : StorageFile) (ids : List Nat)
    (u : PartialTask) (recursive : Bool)
    (hid : u.id = none) (hsub : u.subtasks = none)
    (hstate : ∀ st, u.state = some st → st = "" ∨ validateState st s.meta.states = true)
    (hunknown : ∃ tid ∈ ids, findInForest tid s.datas = none) :
    ∃ tid ∈ ids, findInForest tid s.datas = none ∧
      editTask ids u recursive s = .err (.taskNotFound tid) s := by
  obtain ⟨tid, hmem, hnone, hloop⟩ :=
    editTaskLoop_unknown_aborts s.meta u recursive hid hsub hstate ids s.datas hunknown
  refine ⟨tid, hmem, hnone, ?_⟩
  rw [editTask, hloop]

/-- C5 witness: editing the unknown id 99 on the one-task storage aborts
with TaskNotFound and leaves the stored file untouched. -/
theorem claim_C5_witness :
    ∃ tid ∈ [99], findInForest tid storageA.datas = none ∧
      editTask [99] { name := some "X" } false storageA
        = .err (.taskNotFound tid) storageA :=
  claim_C5_unknown_id_aborts_batch storageA [99] { name := some "X" } false rfl rfl
    (by intro st h; cases h)
    ⟨99, by simp, by simp [findInForest, storageA, taskA]⟩

/-- C5 counterexample: the claim as stated fails when the updates carry an
id property.  On the forest [task id 1], the batch [1, 5] contains id 5
which resolves to no node, yet editTask with updates that set id to 5
renames the first task to id 5 in memory, then finds id 5 on the second
iteration and persists the whole batch successfully: the call does not fail
and the stored file changes. -/
theorem claim_C5_counterexample :
    findInForest 5 storageA.datas = none ∧
    (editTask [1, 5] { id := some 5 } false storageA).isOk = true ∧
    extractIdsForest ((editTask [1, 5] { id := some 5 } false storageA).stored).datas
      = [5] ∧
    extractIdsForest storageA.datas = [1] := by
  refine ⟨by simp [findInForest, storageA, taskA], ?_, ?_, by rfl⟩ <;>
    simp [editTask, editTaskLoop, findInForest, editInForest, assignUpdates,
      storageA, taskA, MResult.isOk, MResult.stored, extractIdsForest_cons,
      extractIdsForest_nil, extractIdsTask_mk, optIdList]

/-! ## Lemmas about the state machine -/

/-- With distinct state names, findIndex of the k-th name is k. -/
theorem findStateIdx_get (states : List TaskState)
    (hnd : (states.map TaskState.name).Nodup) :
    ∀ k (hk : k < states.length),
      findStateIdx (some (states[k].name)) states = some k := by
  induction states with
  | nil => intro k hk; simp at hk
  | cons st rest ih =>
    intro k hk
    rw [List.map_cons, List.nodup_cons] at hnd
    cases k with
    | zero =>
      rw [findStateIdx]
      simp
    | succ k =>
      rw [findStateIdx]
      have hne : ¬(some ((st :: rest)[k + 1].name) = some st.name) := by
        intro hcon
        simp only [List.getElem_cons_succ, Option.some.injEq] at hcon
        apply hnd.1
        rw [← hcon]
        exact List.mem_map_of_mem TaskState.name (List.getElem_mem _)
      rw [if_neg hne]
      have hk2 : k < rest.length := by simp at hk; omega
      have := ih hnd.2 k hk2
      simp only [List.getElem_cons_succ]
      rw [this]
      rfl

/-- A configured state name validates. -/
theorem validateState_of_mem {st : TaskState} {states : List TaskState}
    (h : st ∈ states) : validateState st.name states = true := by
  rw [validateState, List.any_eq_true]
  exact ⟨st, h, by simp⟩

/-- Assigning a state twice keeps the second assignment. -/
theorem assign_state_twice (t : ITask) (a b : String) :
    assignUpdates (assignUpdates t { state := some a }) { state := some b }
      = assignUpdates t { state := some b } := by
  cases t <;> rfl

/-- Assigning the state a task already has changes nothing. -/
theorem assign_state_self {t : ITask} {ns : String} (h : t.state = some ns) :
    assignUpdates t { state := some ns } = t := by
  cases t with
  | mk i n d s tm p su =>
    simp only [ITask.state] at h
    rw [assignUpdates]
    simp [h]

/-- k-fold repetition of an operation against the stored file, stopping at
the first thrown error. -/
def iterN (g : StorageFile → MResult Unit) : Nat → StorageFile → MResult Unit
  | 0, st => .ok () st
  | k + 1, st =>
    match g st with
    | .ok _ st2 => iterN g k st2
    | .err e st2 => .err e st2

theorem iterN_succ_back (g : StorageFile → MResult Unit) :
    ∀ k s, iterN g (k + 1) s =
      match iterN g k s with
      | .ok _ st => g st
      | .err e st => .err e st := by
  intro k
  induction k with
  | zero =>
    intro s
    show (match g s with
      | .ok _ st2 => iterN g 0 st2
      | .err e st2 => MResult.err e st2) = _
    show (match g s with
      | .ok _ st2 => iterN g 0 st2
      | .err e st2 => MResult.err e st2) = g s
    cases hg : g s with
    | ok v st2 => rfl
    | err e st2 => rfl
  | succ k ih =>
    intro s
    show (match g s with
      | .ok _ st2 => iterN g (k + 1) st2
      | .err e st2 => MResult.err e st2) = _
    cases hg : g s with
    | ok v st2 =>
      have hstep : iterN g (k + 1) s = iterN g k st2 := by
        show (match g s with
          | .ok _ st2 => iterN g k st2
          | .err e st2 => MResult.err e st2) = _
        rw [hg]
      dsimp only
      rw [ih st2, hstep]
    | err e st2 =>
      have hstep : iterN g (k + 1) s = MResult.err e st2 := by
        show (match g s with
          | .ok _ st2 => iterN g k st2
          | .err e st2 => MResult.err e st2) = _
        rw [hg]
      dsimp only
      rw [hstep]

/-- A single-id editTask that only sets a valid (or empty) state succeeds
and the task is retrievable with the assigned state. -/
theorem editTask_single_state (sk : StorageFile) (tid : Nat) (tk : ITask)
    (hfind : findInForest tid sk.datas = some tk) (ns : String)
    (hval : ns = "" ∨ validateState ns sk.meta.states = true) :
    ∃ l2, editTask [tid] { state := some ns } false sk = .ok () ⟨sk.meta, l2⟩ ∧
      findInForest tid l2 = some (assignUpdates tk { state := some ns }) := by
  have hid : (assignUpdates tk { state := some ns }).id = some tid := by
    rw [assignUpdates_id, find_id hfind]
    rfl
  obtain ⟨l2, hedit, hfind2⟩ :=
    find_edit (f := fun t => assignUpdates t { state := some ns }) hfind hid
  refine ⟨l2, ?_, hfind2⟩
  rw [editTask]
  rw [editTaskLoop]
  rw [hfind]
  dsimp only
  simp only [Bool.false_eq_true, if_false]
  rw [hedit]
  dsimp only [Option.getD_some]
  rcases hval with he | hv
  · subst he
    rw [if_neg (by simp)]
    rw [editTaskLoop]
  · rw [if_neg (by simp [hv])]
    rw [editTaskLoop]

/-- One successful incrementTask call: a task found in state k (not the
last) moves to state k+1. -/
theorem incrementTask_step (states : List TaskState)
    (hnd : (states.map TaskState.name).Nodup)
    (sk : StorageFile) (hmeta : sk.meta.states = states)
    (tid : Nat) (tk : ITask) (hfind : findInForest tid sk.datas = some tk)
    (k : Nat) (hk : k + 1 < states.length)
    (hstate : tk.state = some (states[k].name)) :
    ∃ l2, incrementTask [tid] false sk = .ok () ⟨sk.meta, l2⟩ ∧
      findInForest tid l2
        = some (assignUpdates tk { state := some (states[k + 1].name) }) := by
  have hnext : getNextState tk.state sk.meta.states
      = .ok (some (states[k + 1].name)) := by
    rw [hmeta, hstate, getNextState]
    rw [findStateIdx_get states hnd k (by omega)]
    dsimp only
    rw [if_neg (by omega)]
    rw [List.getD_eq_getElem states _ hk]
  obtain ⟨l2, hedit, hfind2⟩ := editTask_single_state sk tid tk hfind
    (states[k + 1].name)
    (Or.inr (by
      rw [hmeta]
      exact validateState_of_mem (List.getElem_mem hk)))
  refine ⟨l2, ?_, hfind2⟩
  rw [incrementTask, incrementLoop, hfind]
  dsimp only
  rw [hnext]
  dsimp only
  rw [hedit]
  dsimp only
  rw [incrementLoop]

/-- incrementTask on a task in the final state throws NoFurtherState and
stores nothing. -/
theorem incrementTask_final (states : List TaskState)
    (hnd : (states.map TaskState.name).Nodup)
    (sk : StorageFile) (hmeta : sk.meta.states = states)
    (tid : Nat) (tk : ITask) (hfind : findInForest tid sk.datas = some tk)
    (hlen : states.length ≠ 0)
    (hstate : tk.state = some (states[states.length - 1].name)) :
    incrementTask [tid] false sk = .err (.noFurtherState tid) sk := by
  have hnext : getNextState tk.state sk.meta.states = .ok none := by
    rw [hmeta, hstate, getNextState]
    rw [findStateIdx_get states hnd (states.length - 1) (by omega)]
    dsimp only
    rw [if_pos rfl]
  rw [incrementTask, incrementLoop, hfind]
  dsimp only
  rw [hnext]

/-! ## Claim C7: state progression under incrementTask -/

/-- C7: with n distinctly-named configured states, a task found in the
default (first) state advances exactly one state per incrementTask call:
after k < n calls it is retrievable in state k, all n-1 calls succeed, and
the n-th call fails NoFurtherState leaving the stored file of the n-1
successful calls unchanged. -/
theorem claim_C7_increment_progression
    (states : List TaskState) (hnd : (states.map TaskState.name).Nodup)
    (hlen : states.length ≠ 0)
    (s : StorageFile) (hmeta : s.meta.states = states)
    (tid : Nat) (task : ITask)
    (hfind : findInForest tid s.datas = some task)
    (hstate : task.state = some (getDefaultState states)) :
    (∀ k, k < states.length →
      ∃ dk, iterN (incrementTask [tid] false) k s = .ok () ⟨s.meta, dk⟩ ∧
        findInForest tid dk
          = some (assignUpdates task
              { state := some ((states.getD k ⟨"", "", ""⟩).name) })) ∧
    (∃ d, iterN (incrementTask [tid] false) (states.length - 1) s
        = .ok () ⟨s.meta, d⟩ ∧
      iterN (incrementTask [tid] false) states.length s
        = .err (.noFurtherState tid) ⟨s.meta, d⟩) := by
  have main : ∀ k, k < states.length →
      ∃ dk, iterN (incrementTask [tid] false) k s = .ok () ⟨s.meta, dk⟩ ∧
        findInForest tid dk
          = some (assignUpdates task
              { state := some ((states.getD k ⟨"", "", ""⟩).name) }) := by
    intro k
    induction k with
    | zero =>
      intro _
      refine ⟨s.datas, rfl, ?_⟩
      have h0 : assignUpdates task
          { state := some ((states.getD 0 ⟨"", "", ""⟩).name) } = task :=
        assign_state_self hstate
      rw [h0]
      exact hfind
    | succ k ih =>
      intro hk1
      obtain ⟨dk, hiter, hfindk⟩ := ih (by omega)
      have hstk : (assignUpdates task
          { state := some ((states.getD k ⟨"", "", ""⟩).name) }).state
            = some (states[k].name) := by
        rw [assignUpdates_state, List.getD_eq_getElem states _ (by omega : k < states.length)]
        rfl
      obtain ⟨l2, hstep, hfind2⟩ :=
        incrementTask_step states hnd ⟨s.meta, dk⟩ hmeta tid _ hfindk k hk1 hstk
      refine ⟨l2, ?_, ?_⟩
      · rw [iterN_succ_back, hiter]
        exact hstep
      · rw [hfind2, assign_state_twice]
        rw [List.getD_eq_getElem states _ hk1]
  refine ⟨main, ?_⟩
  obtain ⟨d, hiter, hfindd⟩ := main (states.length - 1) (by omega)
  refine ⟨d, hiter, ?_⟩
  have hsplit : states.length = (states.length - 1) + 1 := by omega
  rw [hsplit, iterN_succ_back, hiter]
  have hstd : (assignUpdates task
      { state := some ((states.getD (states.length - 1) ⟨"", "", ""⟩).name) }).state
        = some (states[states.length - 1].name) := by
    rw [assignUpdates_state,
      List.getD_eq_getElem states _ (by omega : states.length - 1 < states.length)]
    rfl
  exact incrementTask_final states hnd ⟨s.meta, d⟩ hmeta tid _ hfindd hlen hstd

/-- C7 witness: the default three-state sequence on the one-task storage;
the theorem applies with task id 1 starting at todo. -/
theorem claim_C7_witness :
    (∀ k, k < DEFAULT_TASK_STATES.length →
      ∃ dk, iterN (incrementTask [1] false) k storageA = .ok () ⟨storageA.meta, dk⟩ ∧
        findInForest 1 dk
          = some (assignUpdates taskA
              { state := some ((DEFAULT_TASK_STATES.getD k ⟨"", "", ""⟩).name) })) ∧
    (∃ d, iterN (incrementTask [1] false) (DEFAULT_TASK_STATES.length - 1) storageA
        = .ok () ⟨storageA.meta, d⟩ ∧
      iterN (incrementTask [1] false) DEFAULT_TASK_STATES.length storageA
        = .err (.noFurtherState 1) ⟨storageA.meta, d⟩) :=
  claim_C7_increment_progression DEFAULT_TASK_STATES (by decide) (by decide)
    storageA rfl 1 taskA (by simp [findInForest, storageA, taskA]) rfl

/-! ## Lemmas about deleteTask -/

theorem spliceById_some_mem {x : Nat} :
    ∀ {l l2 : List ITask}, spliceById x l = some l2 → x ∈ extractIdsForest l := by
  intro l
  induction l with
  | nil => intro l2 h; rw [spliceById] at h; cases h
  | cons t ts ih =>
    intro l2 h
    rw [spliceById] at h
    rw [extractIdsForest_cons]
    by_cases hid : t.id = some x
    · exact List.mem_append_left _ (mem_extract_self hid)
    · rw [if_neg hid] at h
      cases hts : spliceById x ts with
      | none => rw [hts] at h; cases h
      | some l3 => exact List.mem_append_right _ (ih hts)

theorem removeFromSubtasks_some_mem {x : Nat} :
    ∀ {l l2 : List ITask}, removeFromSubtasks x l = some l2 →
      x ∈ extractIdsForest l := by
  intro l
  induction l using removeFromSubtasks.induct x with
  | case1 => intro l2 h; rw [removeFromSubtasks] at h; cases h
  | case2 i n d s tm p su ts su2 hsp =>
    intro l2 h
    rw [extractIdsForest_cons, extractIdsTask_mk]
    have := spliceById_some_mem hsp
    simp [this]
  | case3 i n d s tm p su ts hsp su2 hrm ihsu =>
    intro l2 h
    rw [extractIdsForest_cons, extractIdsTask_mk]
    have := ihsu hrm
    simp [this]
  | case4 i n d s tm p su ts hsp hrm ihsu ihts =>
    intro l2 h
    rw [removeFromSubtasks, hsp, hrm] at h
    cases hts : removeFromSubtasks x ts with
    | none => rw [hts] at h; cases h
    | some l3 =>
      rw [extractIdsForest_cons]
      exact List.mem_append_right _ (ihts hts)

theorem spliceById_none_of_not_mem {x : Nat} {l : List ITask}
    (h : x ∉ extractIdsForest l) : spliceById x l = none := by
  cases hs : spliceById x l with
  | none => rfl
  | some l2 => exact absurd (spliceById_some_mem hs) h

theorem removeFromSubtasks_none_of_not_mem {x : Nat} {l : List ITask}
    (h : x ∉ extractIdsForest l) : removeFromSubtasks x l = none := by
  cases hs : removeFromSubtasks x l with
  | none => rfl
  | some l2 => exact absurd (removeFromSubtasks_some_mem hs) h

/-- Pull the middle block of an append to the front, up to permutation. -/
theorem perm_pull_middle (A T B C : List Nat) :
    (A ++ (T ++ B) ++ C).Perm (T ++ (A ++ B ++ C)) := by
  have h1 : A ++ (T ++ B) ++ C = A ++ T ++ (B ++ C) := by
    simp [List.append_assoc]
  have h2 : T ++ (A ++ B ++ C) = T ++ A ++ (B ++ C) := by
    simp [List.append_assoc]
  rw [h1, h2]
  exact List.perm_append_comm.append_right (B ++ C)


/-- Pull the second block of an append to the front, up to permutation. -/
theorem perm_pull_second (A T B : List Nat) :
    (A ++ (T ++ B)).Perm (T ++ (A ++ B)) := by
  have h1 : A ++ (T ++ B) = A ++ T ++ B := by simp [List.append_assoc]
  have h2 : T ++ (A ++ B) = T ++ A ++ B := by simp [List.append_assoc]
  rw [h1, h2]
  exact List.perm_append_comm.append_right B

/-- Deleting a found id from a duplicate-free forest succeeds and removes
exactly the found subtree: the ids of the original forest are a permutation
of the ids of the subtree plus the ids of the remaining forest. -/
theorem deleteOne_perm (x : Nat) :
    ∀ l : List ITask, (extractIdsForest l).Nodup → ∀ t : ITask,
      findInForest x l = some t →
      ∃ l2, deleteOne x l = some l2 ∧
        (extractIdsForest l).Perm (extractIdsTask t ++ extractIdsForest l2) := by
  intro l
  induction l using findInForest.induct x with
  | case1 =>
    intro _ t hfind
    rw [findInForest] at hfind
    cases hfind
  | case2 n d s tm p su ts =>
    intro hnd t hfind
    rw [findInForest] at hfind
    simp at hfind
    subst hfind
    refine ⟨ts, ?_, ?_⟩
    · rw [deleteOne, spliceById]
      rw [if_pos (by rfl)]
    · rw [extractIdsForest_cons]
  | case3 i n d s tm p su ts hne r hr ih =>
    intro hnd t hfind
    rw [findInForest] at hfind
    simp only [if_neg hne, hr, Option.some.injEq] at hfind
    subst hfind
    rw [extractIdsForest_cons, extractIdsTask_mk] at hnd
    rw [List.nodup_append] at hnd
    obtain ⟨hndAS, hndT, hdisj⟩ := hnd
    have hndS : (extractIdsForest su).Nodup := (List.nodup_append.mp hndAS).2.1
    have hxS : x ∈ extractIdsForest su := by
      rw [← find_isSome_iff_mem, hr]
      rfl
    have hxT : x ∉ extractIdsForest ts :=
      hdisj (List.mem_append_right _ hxS)
    obtain ⟨su2, hdelsu, hpermsu⟩ := ih hndS r hr
    have hsphead : spliceById x (ITask.mk i n d s tm p su :: ts) = none := by
      rw [spliceById]
      rw [if_neg (by simpa using hne)]
      rw [spliceById_none_of_not_mem hxT]
      rfl
    have hrfs : removeFromSubtasks x (ITask.mk i n d s tm p su :: ts)
        = some (ITask.mk i n d s tm p su2 :: ts) := by
      rw [removeFromSubtasks]
      rw [deleteOne] at hdelsu
      cases hsp : spliceById x su with
      | some sua =>
        rw [hsp] at hdelsu
        dsimp only at hdelsu ⊢
        injection hdelsu with hh
        rw [hh]
      | none =>
        rw [hsp] at hdelsu
        dsimp only at hdelsu ⊢
        rw [hdelsu]
    refine ⟨ITask.mk i n d s tm p su2 :: ts, ?_, ?_⟩
    · rw [deleteOne, hsphead, hrfs]
    · rw [extractIdsForest_cons, extractIdsTask_mk,
        extractIdsForest_cons, extractIdsTask_mk]
      refine ((hpermsu.append_left (optIdList i)).append_right
        (extractIdsForest ts)).trans ?_
      exact perm_pull_middle (optIdList i) (extractIdsTask r)
        (extractIdsForest su2) (extractIdsForest ts)
  | case4 i n d s tm p su ts hne hnone ihsu ihts =>
    intro hnd t hfind
    rw [findInForest] at hfind
    simp only [if_neg hne, hnone] at hfind
    rw [extractIdsForest_cons, extractIdsTask_mk] at hnd
    rw [List.nodup_append] at hnd
    obtain ⟨hndAS, hndT, hdisj⟩ := hnd
    have hxS : x ∉ extractIdsForest su := by
      rw [← find_none_iff_not_mem]
      exact hnone
    obtain ⟨ts2, hdelts, hpermts⟩ := ihts hndT t hfind
    refine ⟨ITask.mk i n d s tm p su :: ts2, ?_, ?_⟩
    · rw [deleteOne]
      rw [deleteOne] at hdelts
      cases hspts : spliceById x ts with
      | some tsa =>
        rw [hspts] at hdelts
        dsimp only at hdelts
        rw [show spliceById x (ITask.mk i n d s tm p su :: ts)
            = some (ITask.mk i n d s tm p su :: tsa) from by
          rw [spliceById]
          rw [if_neg (by simpa using hne), hspts]
          rfl]
        dsimp only
        injection hdelts with hh
        rw [hh]
      | none =>
        rw [hspts] at hdelts
        dsimp only at hdelts
        rw [show spliceById x (ITask.mk i n d s tm p su :: ts) = none from by
          rw [spliceById]
          rw [if_neg (by simpa using hne), hspts]
          rfl]
        dsimp only
        rw [removeFromSubtasks, spliceById_none_of_not_mem hxS,
          removeFromSubtasks_none_of_not_mem hxS, hdelts]
        rfl
    · rw [extractIdsForest_cons, extractIdsTask_mk,
        extractIdsForest_cons, extractIdsTask_mk]
      refine (hpermts.append_left (optIdList i ++ extractIdsForest su)).trans ?_
      exact perm_pull_second (optIdList i ++ extractIdsForest su)
        (extractIdsTask t) (extractIdsForest ts2)

/-! ## Claim C10: moveTask with the destination inside the moved subtree -/

/-- C10: when the destination parent lies inside the subtree of the id
being moved (duplicate-free forest), moveTask first persists the deletion
of the whole subtree via deleteTask and then fails TaskNotFound when
re-resolving the new parent in the reloaded forest: the stored file left
behind is the post-deletion one, from which the moved task, all of its
descendants and the destination parent are gone. -/
theorem claim_C10_move_into_subtree_loses_data
    (s : StorageFile) (tid pid : Nat) (task : ITask)
    (hnd : (extractIdsForest s.datas).Nodup)
    (hfind : findInForest tid s.datas = some task)
    (hpid : pid ∈ extractIdsTask task) :
    ∃ d2, moveTask [tid] pid s = .err (.taskNotFound pid) ⟨s.meta, d2⟩ ∧
      deleteOne tid s.datas = some d2 ∧
      (∀ y ∈ extractIdsTask task, y ∉ extractIdsForest d2) ∧
      tid ∈ extractIdsTask task ∧
      pid ∉ extractIdsForest d2 := by
  obtain ⟨d2, hdel, hperm⟩ := deleteOne_perm tid s.datas hnd task hfind
  have hnd2 : (extractIdsTask task ++ extractIdsForest d2).Nodup := hperm.nodup hnd
  rw [List.nodup_append] at hnd2
  have hgone : ∀ y ∈ extractIdsTask task, y ∉ extractIdsForest d2 :=
    fun y hy => hnd2.2.2 hy
  have hpgone : pid ∉ extractIdsForest d2 := hgone pid hpid
  have hpids : pid ∈ extractIdsForest s.datas :=
    hperm.mem_iff.mpr (List.mem_append_left _ hpid)
  refine ⟨d2, ?_, hdel, hgone, mem_extract_self (find_id hfind), hpgone⟩
  have hdeltask : deleteTask [tid] s = .ok () ⟨s.meta, d2⟩ := by
    rw [deleteTask, deleteLoop, hdel]
    dsimp only
    rw [deleteLoop]
  have heditnone : editInForest pid
      (fun par => par.withSubtasks (par.subtasks ++ [task])) d2 = none := by
    have hfnone : findInForest pid d2 = none := by
      rw [find_none_iff_not_mem]
      exact hpgone
    have hiso := edit_isSome_eq_find_isSome pid
      (fun par => par.withSubtasks (par.subtasks ++ [task])) d2
    rw [hfnone] at hiso
    cases he : editInForest pid
        (fun par => par.withSubtasks (par.subtasks ++ [task])) d2
    · rfl
    · rw [he] at hiso; simp at hiso
  cases hfp : findInForest pid s.datas with
  | none =>
    rw [find_none_iff_not_mem] at hfp
    exact absurd hpids hfp
  | some par0 =>
    rw [moveTask, hfp]
    dsimp only
    rw [moveLoop, hfind]
    dsimp only
    rw [hdeltask]
    dsimp only
    rw [heditnone]

/-- C10 witness: a parent (id 1) with one child (id 2); moving task 1 under
its own child 2 deletes the whole subtree and then fails, leaving an empty
stored forest. -/
theorem claim_C10_witness :
    ∃ d2, moveTask [1] 2 ⟨defaultMeta,
        [ITask.mk (some 1) (some "P") none (some "todo") (some "01/01/2024") none
          [ITask.mk (some 2) (some "C") none (some "todo") (some "01/01/2024") none []]]⟩
        = .err (.taskNotFound 2) ⟨defaultMeta, d2⟩ ∧
      deleteOne 1
        [ITask.mk (some 1) (some "P") none (some "todo") (some "01/01/2024") none
          [ITask.mk (some 2) (some "C") none (some "todo") (some "01/01/2024") none []]]
        = some d2 ∧
      (∀ y ∈ extractIdsTask
          (ITask.mk (some 1) (some "P") none (some "todo") (some "01/01/2024") none
            [ITask.mk (some 2) (some "C") none (some "todo") (some "01/01/2024") none []]),
        y ∉ extractIdsForest d2) ∧
      1 ∈ extractIdsTask
          (ITask.mk (some 1) (some "P") none (some "todo") (some "01/01/2024") none
            [ITask.mk (some 2) (some "C") none (some "todo") (some "01/01/2024") none []]) ∧
      2 ∉ extractIdsForest d2 :=
  claim_C10_move_into_subtree_loses_data
    ⟨defaultMeta,
      [ITask.mk (some 1) (some "P") none (some "todo") (some "01/01/2024") none
        [ITask.mk (some 2) (some "C") none (some "todo") (some "01/01/2024") none []]]⟩
    1 2
    (ITask.mk (some 1) (some "P") none (some "todo") (some "01/01/2024") none
      [ITask.mk (some 2) (some "C") none (some "todo") (some "01/01/2024") none []])
    (by decide)
    (by simp [findInForest])
    (by decide)

/-! ## Lemmas about the backup machinery -/

theorem map_fst_filter (bl : List (String × StorageFile)) (q : String → Bool) :
    (bl.filter (fun nb => q nb.1)).map Prod.fst = (bl.map Prod.fst).filter q := by
  induction bl with
  | nil => rfl
  | cons nb rest ih =>
    rw [List.map_cons, List.filter_cons, List.filter_cons]
    cases hq : q nb.1 with
    | true =>
      simp only [if_pos]
      rw [List.map_cons, ih]
    | false =>
      simp only [Bool.false_eq_true, if_false]
      exact ih

theorem filter_swap (l : List String) (p q : String → Bool) :
    (l.filter q).filter p = (l.filter p).filter q := by
  rw [List.filter_filter, List.filter_filter]
  apply List.filter_congr
  intro a _
  rw [Bool.and_comm]

/-- Pruning a duplicate-free name list: removing the names listed beyond
position keep of the descending sorted order and re-listing yields exactly
the first keep entries of the descending sorted order. -/
theorem prune_sorted_take (M : List String) (keep : Nat) (hMnd : M.Nodup) :
    ((M.filter (fun x =>
        !(((M.insertionSort (fun a b => a ≤ b)).reverse.drop keep).contains x))).insertionSort
          (fun a b => a ≤ b)).reverse
      = ((M.insertionSort (fun a b => a ≤ b)).reverse).take keep := by
  have hperm : (M.insertionSort (fun a b => a ≤ b)).Perm M := List.perm_insertionSort _ M
  have hsorted : (M.insertionSort (fun a b => a ≤ b)).Sorted (fun a b => a ≤ b) :=
    List.sorted_insertionSort _ M
  generalize hLdef : M.insertionSort (fun a b => a ≤ b) = L
  rw [hLdef] at hperm hsorted
  have hLnd : L.Nodup := hperm.symm.nodup hMnd
  have htake_toDel : L.reverse.drop keep = (L.take (L.length - keep)).reverse := by
    rw [List.drop_reverse]
  have hsplitnd := hLnd
  rw [← List.take_append_drop (L.length - keep) L, List.nodup_append] at hsplitnd
  have h1 : (L.take (L.length - keep)).filter
      (fun x => !((L.reverse.drop keep).contains x)) = [] := by
    rw [List.filter_eq_nil_iff]
    intro a ha
    rw [htake_toDel]
    simp [List.mem_reverse, ha]
  have h2 : (L.drop (L.length - keep)).filter
      (fun x => !((L.reverse.drop keep).contains x)) = L.drop (L.length - keep) := by
    rw [List.filter_eq_self]
    intro a ha
    rw [htake_toDel]
    have hnotmem : a ∉ (List.take (L.length - keep) L).reverse := by
      rw [List.mem_reverse]
      intro hmem
      exact hsplitnd.2.2 hmem ha
    simpa using hnotmem
  have hfilterL : L.filter (fun x => !((L.reverse.drop keep).contains x))
      = L.drop (L.length - keep) := by
    have hsplit : L.filter (fun x => !((L.reverse.drop keep).contains x))
        = (L.take (L.length - keep) ++ L.drop (L.length - keep)).filter
            (fun x => !((L.reverse.drop keep).contains x)) := by
      rw [List.take_append_drop]
    rw [hsplit, List.filter_append, h1, h2, List.nil_append]
  have hM2perm : (M.filter (fun x => !((L.reverse.drop keep).contains x))).Perm
      (L.drop (L.length - keep)) := by
    have := (hperm.symm.filter (fun x => !((L.reverse.drop keep).contains x)))
    rw [hfilterL] at this
    exact this
  have hsorted_drop : (L.drop (L.length - keep)).Sorted (fun a b => a ≤ b) :=
    hsorted.sublist (List.drop_sublist _ L)
  have hsorteq : (M.filter (fun x =>
      !((L.reverse.drop keep).contains x))).insertionSort (fun a b => a ≤ b)
        = L.drop (L.length - keep) :=
    List.eq_of_perm_of_sorted ((List.perm_insertionSort _ _).trans hM2perm)
      (List.sorted_insertionSort _ _) hsorted_drop
  rw [hsorteq, List.take_reverse]

/-- cleanupBackups keeps exactly the first keepCount listed backups: the
listing after cleanup is the keepCount most recent names. -/
theorem cleanupBackups_take (keepCount : Nat) (fs : TaskFS)
    (hnd : (fs.backups.map Prod.fst).Nodup) :
    UserStorage.listBackups (UserStorage.cleanupBackups keepCount fs)
      = (UserStorage.listBackups fs).take keepCount := by
  by_cases hlen : (UserStorage.listBackups fs).length > keepCount
  · rw [show UserStorage.cleanupBackups keepCount fs
        = ⟨fs.tasksFile, fs.backups.filter
            (fun nb => !(((UserStorage.listBackups fs).drop keepCount).contains nb.1))⟩ from by
      simp only [UserStorage.cleanupBackups]
      rw [if_pos hlen]]
    simp only [UserStorage.listBackups]
    rw [map_fst_filter fs.backups
      (fun x => !((((List.filter (fun file => file.startsWith "tasks-" && file.endsWith ".json")
          (List.map Prod.fst fs.backups)).insertionSort
            (fun a b => a ≤ b)).reverse.drop keepCount).contains x))]
    rw [filter_swap]
    exact prune_sorted_take
      ((fs.backups.map Prod.fst).filter
        (fun file => file.startsWith "tasks-" && file.endsWith ".json"))
      keepCount (hnd.filter _)
  · rw [show UserStorage.cleanupBackups keepCount fs = fs from by
      simp only [UserStorage.cleanupBackups]
      rw [if_neg hlen]]
    push_neg at hlen
    rw [List.take_of_length_le hlen]

/-! ## Claim C1: saveStorage and backups -/

/-- A backup directory with twelve distinct backup files, oldest first. -/
def backupFS : TaskFS :=
  ⟨some DEFAULT_STORAGE_DATA,
    [("tasks-01.json", DEFAULT_STORAGE_DATA), ("tasks-02.json", DEFAULT_STORAGE_DATA),
     ("tasks-03.json", DEFAULT_STORAGE_DATA), ("tasks-04.json", DEFAULT_STORAGE_DATA),
     ("tasks-05.json", DEFAULT_STORAGE_DATA), ("tasks-06.json", DEFAULT_STORAGE_DATA),
     ("tasks-07.json", DEFAULT_STORAGE_DATA), ("tasks-08.json", DEFAULT_STORAGE_DATA),
     ("tasks-09.json", DEFAULT_STORAGE_DATA), ("tasks-10.json", DEFAULT_STORAGE_DATA),
     ("tasks-11.json", DEFAULT_STORAGE_DATA), ("tasks-12.json", DEFAULT_STORAGE_DATA)]⟩

/-- C1 counterexample: the claim requires every saveStorage over an
existing primary file to place a copy of the pre-save file in the backup
directory; on a directory state with an existing primary file and no
backups, saveStorage completes and the backup directory is still empty --
no copy of the pre-save content appears anywhere. -/
theorem claim_C1_counterexample :
    TaskFS.tasksFile ⟨some storageA, []⟩ = some storageA ∧
    (UserStorage.saveStorage DEFAULT_STORAGE_DATA ⟨some storageA, []⟩).backups = [] ∧
    ¬ ∃ name, (name, storageA)
        ∈ (UserStorage.saveStorage DEFAULT_STORAGE_DATA ⟨some storageA, []⟩).backups :=
  ⟨rfl, rfl, by simp [UserStorage.saveStorage]⟩

/-- C1 (amended): saveStorage only replaces the primary file content (the
temp-write plus rename) and touches no backup; the backup copy
(createBackup) and the pruning of all but the most recent keepCount
backups (cleanupBackups, default 10, oldest removed first by name order)
exist as separate operations that saveStorage never invokes, and pruning
does keep exactly the 10 most recent names when called. -/
theorem claim_C1_save_plain_cleanup_bounded :
    (∀ (data : StorageFile) (fs : TaskFS),
        (UserStorage.saveStorage data fs).tasksFile = some data ∧
        (UserStorage.saveStorage data fs).backups = fs.backups) ∧
    (∀ fs : TaskFS, (fs.backups.map Prod.fst).Nodup →
        UserStorage.listBackups (UserStorage.cleanupBackups 10 fs)
          = (UserStorage.listBackups fs).take 10) :=
  ⟨fun _ _ => ⟨rfl, rfl⟩, fun fs hnd => cleanupBackups_take 10 fs hnd⟩

/-- C1 witness: the twelve-backup directory has duplicate-free names, and
the theorem applies to it. -/
theorem claim_C1_witness :
    ((UserStorage.saveStorage DEFAULT_STORAGE_DATA backupFS).tasksFile
        = some DEFAULT_STORAGE_DATA ∧
      (UserStorage.saveStorage DEFAULT_STORAGE_DATA backupFS).backups
        = backupFS.backups) ∧
    UserStorage.listBackups (UserStorage.cleanupBackups 10 backupFS)
      = (UserStorage.listBackups backupFS).take 10 :=
  ⟨claim_C1_save_plain_cleanup_bounded.1 DEFAULT_STORAGE_DATA backupFS,
    claim_C1_save_plain_cleanup_bounded.2 backupFS (by decide)⟩

/-! ## Claim C8: loadStorage defaults and shape validation -/

/-- C8: a missing primary file makes loadStorage initialize transparently
and return DEFAULT_STORAGE_DATA (three default states, empty forest)
instead of failing, while an existing file whose parsed top level lacks
meta.states as a sequence or datas as a sequence makes it fail with
CorruptStorage. -/
theorem claim_C8_loadStorage_default_and_corrupt :
    (∀ fs : JsonFS, fs.tasksFile = none →
      UserStorage.loadStorage fs
        = (.ok (encodeStorage DEFAULT_STORAGE_DATA),
            ⟨some (encodeStorage DEFAULT_STORAGE_DATA)⟩)) ∧
    (DEFAULT_STORAGE_DATA.datas = [] ∧
      DEFAULT_STORAGE_DATA.meta.states.map TaskState.name
        = ["todo", "currently_doing", "done"]) ∧
    (∀ (j : Json) (fs : JsonFS), fs.tasksFile = some j →
      ¬(Json.isArray ((j.getField "meta").bind (fun m => m.getField "states")) = true ∧
        Json.isArray (j.getField "datas") = true) →
      (UserStorage.loadStorage fs).1 = .error .corruptStorage) := by
  refine ⟨?_, ⟨rfl, rfl⟩, ?_⟩
  · intro fs h
    rcases fs with ⟨tf⟩
    simp only at h
    subst h
    rfl
  · intro j fs hf hshape
    rcases fs with ⟨tf⟩
    simp only at hf
    subst hf
    rw [UserStorage.loadStorage]
    cases hv : validStorageShape j with
    | true =>
      exfalso
      rw [validStorageShape] at hv
      simp only [Bool.and_eq_true] at hv
      exact hshape ⟨hv.1.2, hv.2⟩
    | false =>
      dsimp only
      rw [if_neg (by simp [hv])]

/-- C8 witness: the missing-file case returns the encoded default, and the
concrete empty-object document fails shape validation. -/
theorem claim_C8_witness :
    UserStorage.loadStorage ⟨none⟩
      = (.ok (encodeStorage DEFAULT_STORAGE_DATA),
          ⟨some (encodeStorage DEFAULT_STORAGE_DATA)⟩) ∧
    (UserStorage.loadStorage ⟨some (Json.obj [])⟩).1 = .error .corruptStorage :=
  ⟨claim_C8_loadStorage_default_and_corrupt.1 ⟨none⟩ rfl,
    claim_C8_loadStorage_default_and_corrupt.2.2 (Json.obj []) ⟨some (Json.obj [])⟩
      rfl (by decide)⟩
